import Mathlib

/-!
# The room list dock (`client/roomlistdock.cpp`)

A shallow embedding of the event handlers of `RoomListDock`: the handlers wired
up in the constructor (selection save/restore, group expansion persistence, the
context-menu actions), `setSelectedRoom`, `showContextMenu`, `getSelectedGroup`,
`getSelectedRoom` and `addTagsSelected`.

The dock talks to collaborators that live outside that file: the room list
model, the rooms and connections of the SDK, the tree view's geometry, the
settings store and a few string constants.  They are parameters of the
embedding (`Env`, `RoomListModel`); calls on them that return nothing are
recorded in a call log (`Call`).
-/

namespace Quaternion

/-! ## Strings, variants, indices -/

/-- QString, as the sequence of its characters. -/
abbrev QString := List Char

/-- The test `s.startsWith(p)` of QString. -/
def QString.startsWith (s p : QString) : Bool := p.isPrefixOf s

/-- The call `s.mid(n)` of QString with one argument: what follows the first `n` characters. -/
def QString.mid (s : QString) (n : Nat) : QString := s.drop n

/-- The call `s.size()` of QString. -/
def QString.size (s : QString) : Nat := s.length

/-- QVariant as the dock uses it: a string value, or the invalid (null) variant. -/
abbrev QVariant := Option QString

/-- The test `v.isValid()` of QVariant. -/
def QVariant.isValid (v : QVariant) : Bool := v.isSome

/-- The test `v.isNull()` of QVariant. -/
def QVariant.isNull (v : QVariant) : Bool := v.isNone

/-- The call `v.toString()` of QVariant: the empty string for an invalid variant. -/
def QVariant.toString (v : QVariant) : QString := v.getD []

/-- QModelIndex of the two-level room tree: the invalid index (the root), a
top-level group row, or a room row under a group row. -/
inductive QModelIndex where
  | invalid
  | group (row : Nat)
  | room (groupRow : Nat) (row : Nat)
deriving DecidableEq, Repr

/-- The test `index.isValid()` of QModelIndex. -/
def QModelIndex.isValid : QModelIndex → Bool
  | .invalid => false
  | _ => true

/-- The call `index.parent()` of QModelIndex: group rows hang off the root, room rows off
their group. -/
def QModelIndex.parent : QModelIndex → QModelIndex
  | .room g _ => .group g
  | _ => .invalid

/-- A room pointer (`QuaternionRoom*`) that is not null; `Option RoomPtr` is the
pointer type, `none` being `nullptr`. -/
abbrev RoomPtr := Nat

/-- A connection pointer (`Quotient::Connection*`) that is not null. -/
abbrev ConnPtr := Nat

/-- A position in widget coordinates. -/
abbrev QPoint := Int × Int

/-! ## The settings store -/

/-- The settings group `UI/RoomsDock`: a flat store from keys to variants.  A key
that was set to an invalid variant is stored (`some none`) and reads back
invalid, like a key that is absent (`none`).  `reads` records the keys passed to
`value`, oldest first. -/
structure SettingsGroup where
  entries : QString → Option QVariant
  reads : List QString

/-- The call `settings.value(key)`: the stored variant, invalid when the key is absent. -/
def SettingsGroup.value (s : SettingsGroup) (key : QString) : QVariant × SettingsGroup :=
  ((s.entries key).getD none, { s with reads := s.reads ++ [key] })

/-- The call `settings.setValue(key, v)`. -/
def SettingsGroup.setValue (s : SettingsGroup) (key : QString) (v : QVariant) : SettingsGroup :=
  { s with entries := fun k => if k = key then some v else s.entries k }

/-- The call `settings.remove(key)`. -/
def SettingsGroup.remove (s : SettingsGroup) (key : QString) : SettingsGroup :=
  { s with entries := fun k => if k = key then none else s.entries k }

/-- What `value(key)` would return, without recording the read. -/
def SettingsGroup.stored (s : SettingsGroup) (key : QString) : QVariant :=
  (s.entries key).getD none

/-- The empty store. -/
def SettingsGroup.empty : SettingsGroup := ⟨fun _ => none, []⟩

/-! ## Rooms and tags -/

/-- Modelled from the spec: the join state of a room (`Quotient::JoinState`, declared
in the SDK and not in `roomlistdock.cpp`): the three states the dock tests for, and
every other state the SDK may define. -/
inductive JoinState where
  | Join
  | Invite
  | Leave
  | other (code : Nat)
deriving DecidableEq, Repr

/-- A tag record (`Quotient::TagRecord`): the ordering weight of a room under a tag,
which may be omitted.  The dock copies weights and never computes with them. -/
structure TagRecord where
  order : Option Rat := none
deriving DecidableEq, Repr

/-- A tag map (`Quotient::TagsMap`, a hash from tag names to tag records), as the list of
its entries; a key occurs at most once and is looked up with `find`. -/
abbrev TagsMap := List (QString × TagRecord)

/-- The lookup `tags.find(key)`: the record stored under `key`, if any. -/
def TagsMap.find (tags : TagsMap) (key : QString) : Option TagRecord := tags.lookup key

/-- The expression `tags[key]` used as a statement: a key that is absent is inserted
with a default-constructed record, a key that is present is left as it is. -/
def TagsMap.ensure (tags : TagsMap) (key : QString) : TagsMap :=
  match tags.find key with
  | some _ => tags
  | none => tags ++ [(key, {})]

/-- How `QString::split` treats empty parts. -/
inductive SplitBehavior where
  | KeepEmptyParts
  | SkipEmptyParts
deriving DecidableEq, Repr

/-- The parts of `s` between occurrences of `sep`, empty parts included. -/
def QString.parts (sep : Char) : QString → List QString
  | [] => [[]]
  | c :: cs =>
    if c = sep then [] :: QString.parts sep cs
    else
      match QString.parts sep cs with
      | [] => [[c]]
      | p :: ps => (c :: p) :: ps

/-- The call `s.split(sep, behavior)` of QString. -/
def QString.split (s : QString) (sep : Char) (behavior : SplitBehavior) : List QString :=
  match behavior with
  | .KeepEmptyParts => QString.parts sep s
  | .SkipEmptyParts => (QString.parts sep s).filter (fun p => !p.isEmpty)

/-- What the dock reads of a room (`QuaternionRoom`). -/
structure QuaternionRoom where
  id : QString
  name : QString
  canonicalAlias : QString
  joinState : JoinState
  tags : TagsMap
  connection : Option ConnPtr
deriving DecidableEq, Repr

/-! ## Collaborators -/

/-- The interface of the room list model (`models/roomlistmodel.h`) the dock calls. -/
structure RoomListModel where
  index : Nat → Nat → QModelIndex
  roomGroupAt : QModelIndex → QVariant
  roomAt : QModelIndex → Option RoomPtr
  isValidGroupIndex : QModelIndex → Bool
  isValidRoomIndex : QModelIndex → Bool
  indexOf : QVariant → Option RoomPtr → QModelIndex

/-- Everything the handlers read that is not the dock's own state: the constants
`RoomGroup::SystemPrefix`, `RoomGroup::LegacyPrefix` and `Quotient::FavouriteTag`, the
function `captionToTag`, the model, the rooms behind the room pointers, and the view's
geometry (`indexAt` stands for `view->indexAt(view->mapFromParent(pos))`). -/
structure Env where
  SystemPrefix : QString
  LegacyPrefix : QString
  FavouriteTag : QString
  captionToTag : QString → QString
  model : RoomListModel
  room : RoomPtr → QuaternionRoom
  indexAt : QPoint → QModelIndex
  mapToGlobal : QPoint → QPoint

/-- The two context menus of the dock. -/
inductive Menu where
  | roomContextMenu
  | groupContextMenu
deriving DecidableEq, Repr

/-- Calls the dock makes on its collaborators, in the order they are made. -/
inductive Call where
  | markAllMessagesAsRead (room : RoomPtr)
  | setTags (room : RoomPtr) (tags : TagsMap)
  | openRoomSettings (room : Option RoomPtr)
  | clipboardSetText (text : QString)
  | joinRoom (connection : ConnPtr) (roomId : QString)
  | leaveRoom (room : RoomPtr)
  | forgetRoom (connection : ConnPtr) (roomId : QString)
  | deleteTag (index : QModelIndex)
  | setExpanded (index : QModelIndex) (expand : Bool)
  | scrollTo (index : QModelIndex)
  | popup (menu : Menu) (globalPos : QPoint)
  | roomSelected (room : Option RoomPtr)
  | logDeprecated (groupKey : QString)
deriving DecidableEq, Repr

/-- How a handler can fail: it dereferences a null pointer, or a `Q_ASSERT` does not hold. -/
inductive Fault where
  | nullDereference
  | assertionFailed
deriving DecidableEq, Repr

/-- The answer of `QMessageBox::question`. -/
inductive StandardButton where
  | Yes
  | No
deriving DecidableEq, Repr

/-- The outcome of running the add-tags dialog: whether it was accepted, and the text of
its input field. -/
structure TagsDialog where
  accepted : Bool
  plainText : QString
deriving DecidableEq, Repr

/-! ## The dock -/

/-- What the dock sets of a menu action (`QAction`). -/
structure QAction where
  text : QString
  enabled : Bool := true
  visible : Bool := true
deriving DecidableEq, Repr

/-- The call `action->setEnabled(b)`. -/
def QAction.setEnabled (a : QAction) (b : Bool) : QAction := { a with enabled := b }

/-- The call `action->setDisabled(b)`. -/
def QAction.setDisabled (a : QAction) (b : Bool) : QAction := { a with enabled := !b }

/-- The call `action->setVisible(b)`. -/
def QAction.setVisible (a : QAction) (b : Bool) : QAction := { a with visible := b }

/-- The call `action->setText(t)`. -/
def QAction.setText (a : QAction) (t : QString) : QAction := { a with text := t }

/-- The state of the dock: the view's current index, the selection cache, the menu
actions, the static settings group `dockSettings`, and the log of calls made so far. -/
structure RoomListDock where
  currentIndex : QModelIndex
  selectedGroupCache : QVariant
  selectedRoomCache : Option RoomPtr
  markAsReadAction : QAction
  addTagsAction : QAction
  roomSettingsAction : QAction
  roomPermalinkAction : QAction
  joinAction : QAction
  leaveAction : QAction
  forgetAction : QAction
  deleteTagAction : QAction
  dockSettings : SettingsGroup
  calls : List Call

/-- The settings value for an expanded group. -/
def Expanded : QString := "expand".toList

/-- The settings value for a collapsed group. -/
def Collapsed : QString := "collapse".toList

/-- The dock as the constructor leaves it, over the settings found on disk. -/
def RoomListDock.new (settings : SettingsGroup) : RoomListDock where
  currentIndex := .invalid
  selectedGroupCache := none
  selectedRoomCache := none
  markAsReadAction := { text := "Mark room as read".toList }
  addTagsAction := { text := "Add tags...".toList }
  roomSettingsAction := { text := "Change room &settings...".toList }
  roomPermalinkAction := { text := "Copy room link to clipboard".toList }
  joinAction := { text := "Join room".toList }
  leaveAction := { text := [] }
  forgetAction := { text := "Forget room".toList }
  deleteTagAction := { text := "Remove tag".toList }
  dockSettings := settings
  calls := []

/-! ## Handlers -/

/-- The method `RoomListDock::getSelectedGroup`. -/
def RoomListDock.getSelectedGroup (env : Env) (d : RoomListDock) : QVariant :=
  let index := d.currentIndex
  if !index.isValid then none else env.model.roomGroupAt index

/-- The method `RoomListDock::getSelectedRoom`. -/
def RoomListDock.getSelectedRoom (env : Env) (d : RoomListDock) : Option RoomPtr :=
  let index := d.currentIndex
  if !index.isValid || !index.parent.isValid then none else env.model.roomAt index

/-- The call `view->setCurrentIndex(idx)` followed by `view->scrollTo(idx)`. -/
def RoomListDock.selectAndScrollTo (d : RoomListDock) (idx : QModelIndex) : RoomListDock :=
  { d with currentIndex := idx, calls := d.calls ++ [.scrollTo idx] }

/-- The method `RoomListDock::setSelectedRoom`. -/
def RoomListDock.setSelectedRoom (env : Env) (d : RoomListDock) (room : Option RoomPtr) :
    RoomListDock :=
  if d.getSelectedRoom env = room then d
  else
    let idx := QModelIndex.invalid
    let currentGroup := d.getSelectedGroup env
    let idx := if !currentGroup.isNull then env.model.indexOf currentGroup room else idx
    let idx := if !idx.isValid then env.model.indexOf none room else idx
    if idx.isValid then d.selectAndScrollTo idx else d

/-- The method `RoomListDock::rowSelected`. -/
def RoomListDock.rowSelected (env : Env) (d : RoomListDock) (index : QModelIndex) :
    RoomListDock :=
  if env.model.isValidRoomIndex index then
    { d with calls := d.calls ++ [.roomSelected (env.model.roomAt index)] }
  else d

/-- The handler of `QTreeView::pressed`; `middleButton` tells whether the middle mouse
button is down. -/
def RoomListDock.onPressed (env : Env) (d : RoomListDock) (middleButton : Bool) :
    RoomListDock :=
  if middleButton then
    match d.getSelectedRoom env with
    | some room => { d with calls := d.calls ++ [.markAllMessagesAsRead room] }
    | none => d
  else d

/-- The handler of `RoomListModel::saveCurrentSelection`. -/
def RoomListDock.onSaveCurrentSelection (env : Env) (d : RoomListDock) : RoomListDock :=
  { d with selectedGroupCache := d.getSelectedGroup env,
           selectedRoomCache := d.getSelectedRoom env }

/-- The handler of `RoomListModel::restoreCurrentSelection`. -/
def RoomListDock.onRestoreCurrentSelection (env : Env) (d : RoomListDock) : RoomListDock :=
  let idx := env.model.indexOf d.selectedGroupCache d.selectedRoomCache
  let d := d.selectAndScrollTo idx
  { d with selectedGroupCache := none, selectedRoomCache := none }

/-- The key under which the legacy name of a system group `groupKey` stored its state. -/
def legacyKey (env : Env) (groupKey : QString) : QString :=
  env.LegacyPrefix ++ groupKey.mid env.SystemPrefix.size

/-- The handler of `RoomListModel::groupAdded`. -/
def RoomListDock.onGroupAdded (env : Env) (d : RoomListDock) (groupPos : Nat) : RoomListDock :=
  let i := env.model.index groupPos 0
  let groupKey := (env.model.roomGroupAt i).toString
  let logged : List Call :=
    if groupKey.startsWith "org.qmatrixclient".toList then [.logDeprecated groupKey] else []
  let (groupState, settings) := d.dockSettings.value groupKey
  let (groupState, settings) :=
    if !groupState.isValid then
      if groupKey.startsWith env.SystemPrefix then
        let (groupState, settings) := settings.value (legacyKey env groupKey)
        let settings := settings.setValue groupKey groupState
        let settings :=
          if groupState.isValid then settings.remove (legacyKey env groupKey) else settings
        (groupState, settings)
      else (groupState, settings)
    else (groupState, settings)
  let expand : Bool :=
    if groupState.isValid then groupState.toString == Expanded
    else groupKey == env.FavouriteTag
  { d with dockSettings := settings, calls := d.calls ++ logged ++ [.setExpanded i expand] }

/-- The handler of `QTreeView::expanded`. -/
def RoomListDock.onExpanded (env : Env) (d : RoomListDock) (i : QModelIndex) : RoomListDock :=
  { d with dockSettings :=
      d.dockSettings.setValue (env.model.roomGroupAt i).toString (some Expanded) }

/-- The handler of `QTreeView::collapsed`. -/
def RoomListDock.onCollapsed (env : Env) (d : RoomListDock) (i : QModelIndex) : RoomListDock :=
  { d with dockSettings :=
      d.dockSettings.setValue (env.model.roomGroupAt i).toString (some Collapsed) }

/-- The slot of the action "Mark room as read". -/
def RoomListDock.markAsReadTriggered (env : Env) (d : RoomListDock) : Except Fault RoomListDock :=
  match d.getSelectedRoom env with
  | some room => .ok { d with calls := d.calls ++ [.markAllMessagesAsRead room] }
  | none => .ok d

/-- The tags after the loop of `addTagsSelected` over the entered tags. -/
def addEnteredTags (env : Env) (tags : TagsMap) (enteredTags : List QString) : TagsMap :=
  enteredTags.foldl (fun tags tag => tags.ensure (env.captionToTag tag)) tags

/-- The method `RoomListDock::addTagsSelected`; `dlg` is the outcome of the dialog it runs. -/
def RoomListDock.addTagsSelected (env : Env) (d : RoomListDock) (dlg : TagsDialog) :
    Except Fault RoomListDock :=
  match d.getSelectedRoom env with
  | some room =>
    if !dlg.accepted then .ok d
    else
      let tags := (env.room room).tags
      let enteredTags := dlg.plainText.split '\n' .SkipEmptyParts
      let tags := addEnteredTags env tags enteredTags
      .ok { d with calls := d.calls ++ [.setTags room tags] }
  | none => .ok d

/-- The slot of the action "Change room settings". -/
def RoomListDock.roomSettingsTriggered (env : Env) (d : RoomListDock) :
    Except Fault RoomListDock :=
  .ok { d with calls := d.calls ++ [.openRoomSettings (d.getSelectedRoom env)] }

/-- The slot of the action "Copy room link to clipboard": it calls `canonicalAlias()` on
what `getSelectedRoom()` returns without testing it. -/
def RoomListDock.roomPermalinkTriggered (env : Env) (d : RoomListDock) :
    Except Fault RoomListDock :=
  match d.getSelectedRoom env with
  | none => .error .nullDereference
  | some room =>
    .ok { d with calls := d.calls ++
      [.clipboardSetText ("https://matrix.to/#/".toList ++ (env.room room).canonicalAlias)] }

/-- The slot of the action "Join room". -/
def RoomListDock.joinTriggered (env : Env) (d : RoomListDock) : Except Fault RoomListDock :=
  match d.getSelectedRoom env with
  | some room =>
    match (env.room room).connection with
    | none => .error .assertionFailed
    | some connection =>
      .ok { d with calls := d.calls ++ [.joinRoom connection (env.room room).id] }
  | none => .ok d

/-- The slot of the leave action. -/
def RoomListDock.leaveTriggered (env : Env) (d : RoomListDock) : Except Fault RoomListDock :=
  match d.getSelectedRoom env with
  | some room => .ok { d with calls := d.calls ++ [.leaveRoom room] }
  | none => .ok d

/-- The slot of the action "Forget room"; `confirmation` is the answer to its question. -/
def RoomListDock.forgetTriggered (env : Env) (d : RoomListDock)
    (confirmation : StandardButton) : Except Fault RoomListDock :=
  match d.getSelectedRoom env with
  | some room =>
    if confirmation = .Yes then
      match (env.room room).connection with
      | none => .error .assertionFailed
      | some connection =>
        .ok { d with calls := d.calls ++ [.forgetRoom connection (env.room room).id] }
    else .ok d
  | none => .ok d

/-- The slot of the action "Remove tag". -/
def RoomListDock.deleteTagTriggered (d : RoomListDock) : Except Fault RoomListDock :=
  .ok { d with calls := d.calls ++ [.deleteTag d.currentIndex] }

/-- The method `RoomListDock::showContextMenu`. -/
def RoomListDock.showContextMenu (env : Env) (d : RoomListDock) (pos : QPoint) :
    Except Fault RoomListDock :=
  let index := env.indexAt pos
  if !index.isValid then .ok d
  else if env.model.isValidGroupIndex index then
    let tagName := env.model.roomGroupAt index
    .ok { d with
      deleteTagAction :=
        d.deleteTagAction.setDisabled (tagName.toString.startsWith env.SystemPrefix),
      calls := d.calls ++ [.popup .groupContextMenu (env.mapToGlobal pos)] }
  else if !env.model.isValidRoomIndex index then .error .assertionFailed
  else
    match env.model.roomAt index with
    | none => .error .nullDereference
    | some room =>
      let joined : Bool := (env.room room).joinState = .Join
      let invited : Bool := (env.room room).joinState = .Invite
      .ok { d with
        markAsReadAction := d.markAsReadAction.setEnabled joined,
        addTagsAction := d.addTagsAction.setEnabled joined,
        joinAction := d.joinAction.setEnabled (!joined),
        leaveAction :=
          (d.leaveAction.setText
            (if invited then "Reject invitation".toList else "Leave room".toList)).setEnabled
            (decide ((env.room room).joinState ≠ .Leave)),
        forgetAction := d.forgetAction.setVisible (!invited),
        calls := d.calls ++ [.popup .roomContextMenu (env.mapToGlobal pos)] }

/-! ## Events -/

/-- The menu actions, each with what its slot asks of the user when it runs. -/
inductive Trigger where
  | markAsRead
  | addTags (dlg : TagsDialog)
  | roomSettings
  | roomPermalink
  | join
  | leave
  | forget (confirmation : StandardButton)
  | deleteTag
deriving DecidableEq, Repr

/-- The action object behind a trigger. -/
def RoomListDock.action (d : RoomListDock) : Trigger → QAction
  | .markAsRead => d.markAsReadAction
  | .addTags _ => d.addTagsAction
  | .roomSettings => d.roomSettingsAction
  | .roomPermalink => d.roomPermalinkAction
  | .join => d.joinAction
  | .leave => d.leaveAction
  | .forget _ => d.forgetAction
  | .deleteTag => d.deleteTagAction

/-- The slot connected to an action. -/
def RoomListDock.slot (env : Env) (d : RoomListDock) : Trigger → Except Fault RoomListDock
  | .markAsRead => d.markAsReadTriggered env
  | .addTags dlg => d.addTagsSelected env dlg
  | .roomSettings => d.roomSettingsTriggered env
  | .roomPermalink => d.roomPermalinkTriggered env
  | .join => d.joinTriggered env
  | .leave => d.leaveTriggered env
  | .forget confirmation => d.forgetTriggered env confirmation
  | .deleteTag => d.deleteTagTriggered

/-- What happens to the dock.  `currentChanged` is the view making another row current
(the user navigating); `triggered` is the user choosing a menu action. -/
inductive Event where
  | customContextMenuRequested (pos : QPoint)
  | currentChanged (index : QModelIndex)
  | setSelectedRoom (room : Option RoomPtr)
  | saveCurrentSelection
  | restoreCurrentSelection
  | groupAdded (groupPos : Nat)
  | expanded (index : QModelIndex)
  | collapsed (index : QModelIndex)
  | pressed (middleButton : Bool)
  | clicked (index : QModelIndex)
  | triggered (action : Trigger)
deriving DecidableEq, Repr

/-- The dock handling one event; an action that is disabled cannot be triggered. -/
def RoomListDock.handle (env : Env) (d : RoomListDock) : Event → Except Fault RoomListDock
  | .customContextMenuRequested pos => d.showContextMenu env pos
  | .currentChanged index => .ok { d with currentIndex := index }
  | .setSelectedRoom room => .ok (d.setSelectedRoom env room)
  | .saveCurrentSelection => .ok (d.onSaveCurrentSelection env)
  | .restoreCurrentSelection => .ok (d.onRestoreCurrentSelection env)
  | .groupAdded groupPos => .ok (d.onGroupAdded env groupPos)
  | .expanded index => .ok (d.onExpanded env index)
  | .collapsed index => .ok (d.onCollapsed env index)
  | .pressed middleButton => .ok (d.onPressed env middleButton)
  | .clicked index => .ok (d.rowSelected env index)
  | .triggered action => if (d.action action).enabled then d.slot env action else .ok d

/-- The dock handling a sequence of events, stopping at the first fault. -/
def RoomListDock.run (env : Env) (d : RoomListDock) : List Event → Except Fault RoomListDock
  | [] => .ok d
  | e :: es =>
    match d.handle env e with
    | .ok d => d.run env es
    | .error f => .error f

/-! ## A concrete room list -/

/-- A group of the room list: its key and the rooms under it. -/
structure RoomGroup where
  key : QString
  rooms : List RoomPtr
deriving DecidableEq, Repr

/-- The position of `room` among `rooms`, if it is there. -/
def findRoom (room : RoomPtr) : List RoomPtr → Nat → Option Nat
  | [], _ => none
  | r :: rs, n => if r = room then some n else findRoom room rs (n + 1)

/-- The first position of `room` in the groups from row `g` on; with `group` given, only a
group of that key is searched. -/
def locate (group : QVariant) (room : RoomPtr) : List RoomGroup → Nat → QModelIndex
  | [], _ => .invalid
  | rg :: rest, g =>
    if group = none ∨ group = some rg.key then
      match findRoom room rg.rooms 0 with
      | some r => .room g r
      | none => locate group room rest (g + 1)
    else locate group room rest (g + 1)

/-- Modelled from the spec: the room list model (`models/roomlistmodel.cpp`, not in the
sources) over a list of groups: positional accessors that report invalid for rows out of
range, the group of a group row or of a room row, and `indexOf` that searches the given
group if one is given, else all groups, and reports not-found as the invalid index. -/
def RoomListModel.ofGroups (groups : List RoomGroup) : RoomListModel where
  index := fun row column =>
    if row < groups.length ∧ column = 0 then .group row else .invalid
  roomGroupAt := fun index =>
    match index with
    | .invalid => none
    | .group g => (groups.get? g).map (fun rg => rg.key)
    | .room g _ => (groups.get? g).map (fun rg => rg.key)
  roomAt := fun index =>
    match index with
    | .room g r => (groups.get? g).bind (fun rg => rg.rooms.get? r)
    | _ => none
  isValidGroupIndex := fun index =>
    match index with
    | .group g => decide (g < groups.length)
    | _ => false
  isValidRoomIndex := fun index =>
    match index with
    | .room g r => ((groups.get? g).bind (fun rg => rg.rooms.get? r)).isSome
    | _ => false
  indexOf := fun group room =>
    match room with
    | none => .invalid
    | some room => locate group room groups 0

/-- An example room list: favourites, direct chats (a system group) and a user tag. -/
def exampleGroups : List RoomGroup :=
  [⟨"m.favourite".toList, [1]⟩, ⟨"im.quotient.direct".toList, [2]⟩, ⟨"u.work".toList, [1, 3]⟩]

/-- The rooms of the example: room 1 is joined and tagged, room 2 is an invitation, room 3
was left. -/
def exampleRoom (room : RoomPtr) : QuaternionRoom :=
  if room = 1 then
    ⟨"!one:example.org".toList, "One".toList, "#one:example.org".toList, .Join,
      [("m.favourite".toList, ⟨some (1 / 2)⟩), ("u.work".toList, ⟨none⟩)], some 7⟩
  else if room = 2 then
    ⟨"!two:example.org".toList, "Two".toList, "#two:example.org".toList, .Invite, [], some 7⟩
  else
    ⟨"!three:example.org".toList, "Three".toList, [], .Leave, [("u.work".toList, ⟨none⟩)],
      some 7⟩

/-- The rows of the example view from top to bottom, every group expanded. -/
def exampleRows : List QModelIndex :=
  [.group 0, .room 0 0, .group 1, .room 1 0, .group 2, .room 2 0, .room 2 1]

/-- An example environment: `im.quotient.` as the system prefix, `org.qmatrixclient.` as the
legacy prefix, rows 20 pixels high. -/
def exampleEnv : Env where
  SystemPrefix := "im.quotient.".toList
  LegacyPrefix := "org.qmatrixclient.".toList
  FavouriteTag := "m.favourite".toList
  captionToTag := fun caption =>
    if caption = "Favourites".toList then "m.favourite".toList else "u.".toList ++ caption
  model := RoomListModel.ofGroups exampleGroups
  room := exampleRoom
  indexAt := fun pos =>
    if pos.2 < 0 then .invalid else (exampleRows.get? (pos.2 / 20).toNat).getD .invalid
  mapToGlobal := fun pos => (pos.1 + 100, pos.2 + 100)

/-- Example settings: the legacy key of the direct chats group holds "collapse". -/
def exampleSettings : SettingsGroup :=
  SettingsGroup.empty.setValue "org.qmatrixclient.direct".toList (some Collapsed)

/-- The example environment after room 1 has gone: the favourites group is gone with it. -/
def exampleEnvAfter : Env :=
  { exampleEnv with
    model := RoomListModel.ofGroups
      [⟨"im.quotient.direct".toList, [2]⟩, ⟨"u.work".toList, [3]⟩],
    indexAt := fun pos =>
      if pos.2 < 0 then .invalid
      else
        ([QModelIndex.group 0, .room 0 0, .group 1, .room 1 0].get? (pos.2 / 20).toNat).getD
          .invalid }

/-! ## Group expansion and the settings store -/

/-- The value the expansion of a group with key `g` is decided from: the value stored
under `g`, or, if none is stored and `g` starts with the system prefix, the value stored
under the legacy prefix followed by `g` without the system prefix. -/
def consultedState (env : Env) (settings : SettingsGroup) (g : QString) : QVariant :=
  match settings.stored g with
  | some s => some s
  | none =>
    if g.startsWith env.SystemPrefix then
      settings.stored (env.LegacyPrefix ++ g.drop env.SystemPrefix.length)
    else none

/-- The dock handling a sequence of events, each in the environment of its moment (the
model changes between events), stopping at the first fault. -/
def RoomListDock.runIn (d : RoomListDock) : List (Env × Event) → Except Fault RoomListDock
  | [] => .ok d
  | (env, e) :: es =>
    match d.handle env e with
    | .ok d => d.runIn es
    | .error f => .error f

/-- The settings value the view's report of a group stores: "expand" for a group reported
expanded, "collapse" for one reported collapsed. -/
def reportedState (expand : Bool) : QString := if expand then Expanded else Collapsed

/-- The event by which the view reports the row `i` expanded or collapsed. -/
def Event.report (expand : Bool) (i : QModelIndex) : Event :=
  if expand then .expanded i else .collapsed i

/-- Whether the event `e`, handled in the state `d`, undoes the view's report of the group
with key `g` as `expand`: the view reports a row of key `g` in the other state, or a
group is added whose key starts with the system prefix, reads back no value, and has `g`
as its legacy key (the handler then moves the value of `g` to that key). -/
def disturbs (env : Env) (d : RoomListDock) (g : QString) (expand : Bool) : Event → Bool
  | .expanded i => decide ((env.model.roomGroupAt i).toString = g) && !expand
  | .collapsed i => decide ((env.model.roomGroupAt i).toString = g) && expand
  | .groupAdded groupPos =>
    (env.model.roomGroupAt (env.model.index groupPos 0)).toString.startsWith env.SystemPrefix
      && !(d.dockSettings.stored
            (env.model.roomGroupAt (env.model.index groupPos 0)).toString).isValid
      && decide (legacyKey env (env.model.roomGroupAt (env.model.index groupPos 0)).toString = g)
  | _ => false

/-- No event of the sequence, handled in the state the dock has reached by then, disturbs
the report of `g` as `expand`. -/
def undisturbed (g : QString) (expand : Bool) : RoomListDock → List (Env × Event) → Bool
  | _, [] => true
  | d, (env, e) :: es =>
    !disturbs env d g expand e &&
      match d.handle env e with
      | .ok d2 => undisturbed g expand d2 es
      | .error _ => true

/-- An example room list in which direct chats appear under their legacy key and under
their system key. -/
def legacyEnv : Env :=
  { exampleEnv with
    model := RoomListModel.ofGroups
      [⟨"org.qmatrixclient.direct".toList, [2]⟩, ⟨"im.quotient.direct".toList, [2]⟩],
    indexAt := fun pos =>
      if pos.2 < 0 then .invalid
      else
        ([QModelIndex.group 0, .room 0 0, .group 1, .room 1 0].get? (pos.2 / 20).toNat).getD
          .invalid }

/-- The two settings values differ. -/
theorem Expanded_ne_Collapsed : (Collapsed == Expanded) = false := by decide

/-- An event other than `groupAdded`, `expanded` and `collapsed`, handled without a fault,
leaves the settings group as it was. -/
theorem handle_settings_frame (env : Env) (d d2 : RoomListDock) (e : Event)
    (hne : ∀ groupPos, e ≠ .groupAdded groupPos)
    (hnx : ∀ i, e ≠ .expanded i) (hnc : ∀ i, e ≠ .collapsed i)
    (h : d.handle env e = .ok d2) : d2.dockSettings = d.dockSettings := by
  cases e with
  | groupAdded groupPos => exact absurd rfl (hne groupPos)
  | expanded i => exact absurd rfl (hnx i)
  | collapsed i => exact absurd rfl (hnc i)
  | customContextMenuRequested pos =>
    simp only [RoomListDock.handle, RoomListDock.showContextMenu] at h
    split at h
    · cases h; rfl
    · split at h
      · cases h; rfl
      · split at h
        · cases h
        · split at h
          · cases h
          · cases h; rfl
  | currentChanged index => cases h; rfl
  | setSelectedRoom room =>
    simp only [RoomListDock.handle, RoomListDock.setSelectedRoom] at h
    cases h
    by_cases h1 : d.getSelectedRoom env = room
    · simp [h1]
    · have key : ∀ (c : Prop) [Decidable c] (idx : QModelIndex),
          (if c then d.selectAndScrollTo idx else d).dockSettings = d.dockSettings := by
        intro c _ idx
        split <;> rfl
      simp only [h1, if_false]
      exact key _ _
  | saveCurrentSelection => cases h; rfl
  | restoreCurrentSelection => cases h; rfl
  | pressed middleButton =>
    simp only [RoomListDock.handle, RoomListDock.onPressed] at h
    cases h
    split
    · split <;> rfl
    · rfl
  | clicked index =>
    simp only [RoomListDock.handle, RoomListDock.rowSelected] at h
    cases h
    split <;> rfl
  | triggered action =>
    simp only [RoomListDock.handle] at h
    split at h
    · cases action with
      | markAsRead =>
        simp only [RoomListDock.slot, RoomListDock.markAsReadTriggered] at h
        split at h <;> (cases h; rfl)
      | addTags dlg =>
        simp only [RoomListDock.slot, RoomListDock.addTagsSelected] at h
        split at h
        · split at h <;> (cases h; rfl)
        · cases h; rfl
      | roomSettings => cases h; rfl
      | roomPermalink =>
        simp only [RoomListDock.slot, RoomListDock.roomPermalinkTriggered] at h
        split at h
        · cases h
        · cases h; rfl
      | join =>
        simp only [RoomListDock.slot, RoomListDock.joinTriggered] at h
        split at h
        · split at h
          · cases h
          · cases h; rfl
        · cases h; rfl
      | leave =>
        simp only [RoomListDock.slot, RoomListDock.leaveTriggered] at h
        split at h <;> (cases h; rfl)
      | forget confirmation =>
        simp only [RoomListDock.slot, RoomListDock.forgetTriggered] at h
        split at h
        · split at h
          · split at h
            · cases h
            · cases h; rfl
          · cases h; rfl
        · cases h; rfl
      | deleteTag => cases h; rfl
    · cases h; rfl

/-- C9: on `groupAdded` for a group with key `g` the dock calls `setExpanded` once, on the
index of the group, after at most a deprecation log entry.  With `s` the value of
`consultedState`, the group is expanded iff `s` equals "expand" when `s` is present, and
iff `g` is the favourites tag when `s` is absent.  For a key that does not start with
the system prefix the only key read from the settings is `g` itself. -/
theorem onGroupAdded_expansion (env : Env) (d : RoomListDock) (groupPos : Nat) (g : QString)
    (hg : (env.model.roomGroupAt (env.model.index groupPos 0)).toString = g) :
    ∃ expand : Bool,
      (d.onGroupAdded env groupPos).calls =
        d.calls
          ++ (if g.startsWith "org.qmatrixclient".toList then [Call.logDeprecated g] else [])
          ++ [Call.setExpanded (env.model.index groupPos 0) expand] ∧
      (∀ s, consultedState env d.dockSettings g = some s → (expand = true ↔ s = Expanded)) ∧
      (consultedState env d.dockSettings g = none → (expand = true ↔ g = env.FavouriteTag)) ∧
      (g.startsWith env.SystemPrefix = false →
        (d.onGroupAdded env groupPos).dockSettings.reads = d.dockSettings.reads ++ [g]) := by
  subst hg
  unfold RoomListDock.onGroupAdded consultedState
  simp only [SettingsGroup.value, SettingsGroup.stored, legacyKey, QString.mid, QString.size]
  cases h1 : d.dockSettings.entries (env.model.roomGroupAt (env.model.index groupPos 0)).toString with
  | none =>
    cases hp : QString.startsWith (env.model.roomGroupAt (env.model.index groupPos 0)).toString
        env.SystemPrefix with
    | false =>
      refine ⟨_, rfl, ?_, ?_, ?_⟩ <;> simp [QVariant.isValid, QVariant.toString]
    | true =>
      cases h2 : d.dockSettings.entries (env.LegacyPrefix ++
          List.drop env.SystemPrefix.length
            (env.model.roomGroupAt (env.model.index groupPos 0)).toString) with
      | none =>
        refine ⟨_, rfl, ?_, ?_, ?_⟩ <;> simp [QVariant.isValid, QVariant.toString]
      | some v =>
        cases v with
        | none =>
          refine ⟨_, rfl, ?_, ?_, ?_⟩ <;> simp [QVariant.isValid, QVariant.toString]
        | some s =>
          refine ⟨_, rfl, ?_, ?_, ?_⟩ <;> simp [QVariant.isValid, QVariant.toString]
  | some v =>
    cases v with
    | none =>
      cases hp : QString.startsWith (env.model.roomGroupAt (env.model.index groupPos 0)).toString
          env.SystemPrefix with
      | false =>
        refine ⟨_, rfl, ?_, ?_, ?_⟩ <;> simp [QVariant.isValid, QVariant.toString]
      | true =>
        cases h2 : d.dockSettings.entries (env.LegacyPrefix ++
            List.drop env.SystemPrefix.length
              (env.model.roomGroupAt (env.model.index groupPos 0)).toString) with
        | none =>
          refine ⟨_, rfl, ?_, ?_, ?_⟩ <;> simp [QVariant.isValid, QVariant.toString]
        | some v =>
          cases v with
          | none =>
            refine ⟨_, rfl, ?_, ?_, ?_⟩ <;> simp [QVariant.isValid, QVariant.toString]
          | some s =>
            refine ⟨_, rfl, ?_, ?_, ?_⟩ <;> simp [QVariant.isValid, QVariant.toString]
    | some s =>
      refine ⟨_, rfl, ?_, ?_, ?_⟩ <;> simp [QVariant.isValid, QVariant.toString]

/-- The expansion rule at the example: the direct chats group, whose legacy key holds
"collapse". -/
theorem onGroupAdded_expansion_witness :
    (exampleEnv.model.roomGroupAt (exampleEnv.model.index 1 0)).toString
        = "im.quotient.direct".toList ∧
    ∃ expand : Bool,
      ((RoomListDock.new exampleSettings).onGroupAdded exampleEnv 1).calls =
        (RoomListDock.new exampleSettings).calls
          ++ (if QString.startsWith "im.quotient.direct".toList "org.qmatrixclient".toList
              then [Call.logDeprecated "im.quotient.direct".toList] else [])
          ++ [Call.setExpanded (exampleEnv.model.index 1 0) expand] ∧
      (∀ s, consultedState exampleEnv (RoomListDock.new exampleSettings).dockSettings
          "im.quotient.direct".toList = some s → (expand = true ↔ s = Expanded)) ∧
      (consultedState exampleEnv (RoomListDock.new exampleSettings).dockSettings
          "im.quotient.direct".toList = none →
        (expand = true ↔ "im.quotient.direct".toList = exampleEnv.FavouriteTag)) ∧
      (QString.startsWith "im.quotient.direct".toList exampleEnv.SystemPrefix = false →
        ((RoomListDock.new exampleSettings).onGroupAdded exampleEnv 1).dockSettings.reads =
          (RoomListDock.new exampleSettings).dockSettings.reads
            ++ ["im.quotient.direct".toList]) :=
  ⟨by decide,
    onGroupAdded_expansion exampleEnv (RoomListDock.new exampleSettings) 1
      "im.quotient.direct".toList (by decide)⟩

/-- An event that does not disturb the report of `g` keeps the value stored under `g`. -/
theorem handle_keeps_reported (env : Env) (d d2 : RoomListDock) (e : Event) (g : QString)
    (expand : Bool) (hs : d.dockSettings.stored g = some (reportedState expand))
    (hnd : disturbs env d g expand e = false) (h : d.handle env e = .ok d2) :
    d2.dockSettings.stored g = some (reportedState expand) := by
  cases e with
  | expanded i =>
    simp only [RoomListDock.handle, RoomListDock.onExpanded] at h
    cases h
    by_cases hk : g = (env.model.roomGroupAt i).toString
    · have he : expand = true := by
        cases expand
        · simp [disturbs, hk] at hnd
        · rfl
      simp [SettingsGroup.stored, SettingsGroup.setValue, hk, he, reportedState]
    · simpa [SettingsGroup.stored, SettingsGroup.setValue, hk] using hs
  | collapsed i =>
    simp only [RoomListDock.handle, RoomListDock.onCollapsed] at h
    cases h
    by_cases hk : g = (env.model.roomGroupAt i).toString
    · have he : expand = false := by
        cases expand
        · rfl
        · simp [disturbs, hk] at hnd
      simp [SettingsGroup.stored, SettingsGroup.setValue, hk, he, reportedState]
    · simpa [SettingsGroup.stored, SettingsGroup.setValue, hk] using hs
  | groupAdded groupPos =>
    simp only [RoomListDock.handle] at h
    cases h
    unfold RoomListDock.onGroupAdded
    simp only [SettingsGroup.value, SettingsGroup.stored, legacyKey, QString.mid, QString.size,
      disturbs] at hs hnd ⊢
    cases h1 : (d.dockSettings.entries
        (env.model.roomGroupAt (env.model.index groupPos 0)).toString).getD none with
    | some v => simpa [h1, QVariant.isValid] using hs
    | none =>
      have hk : g ≠ (env.model.roomGroupAt (env.model.index groupPos 0)).toString := by
        intro hk
        rw [hk, h1] at hs
        cases hs
      cases hp : QString.startsWith (env.model.roomGroupAt (env.model.index groupPos 0)).toString
          env.SystemPrefix with
      | false => simpa [h1, hp, QVariant.isValid] using hs
      | true =>
        have hl : g ≠ env.LegacyPrefix ++ List.drop env.SystemPrefix.length
            (env.model.roomGroupAt (env.model.index groupPos 0)).toString := by
          intro hl
          simp [h1, hp, QVariant.isValid, hl] at hnd
        cases h2 : (d.dockSettings.entries (env.LegacyPrefix ++
            List.drop env.SystemPrefix.length
              (env.model.roomGroupAt (env.model.index groupPos 0)).toString)).getD none with
        | none =>
          simpa [h1, hp, h2, QVariant.isValid, SettingsGroup.setValue, hk] using hs
        | some v =>
          simpa [h1, hp, h2, QVariant.isValid, SettingsGroup.setValue, SettingsGroup.remove,
            hk, hl] using hs
  | customContextMenuRequested pos =>
    rw [handle_settings_frame env d d2 _ (fun _ => by simp) (fun _ => by simp)
      (fun _ => by simp) h]
    exact hs
  | currentChanged index =>
    rw [handle_settings_frame env d d2 _ (fun _ => by simp) (fun _ => by simp)
      (fun _ => by simp) h]
    exact hs
  | setSelectedRoom room =>
    rw [handle_settings_frame env d d2 _ (fun _ => by simp) (fun _ => by simp)
      (fun _ => by simp) h]
    exact hs
  | saveCurrentSelection =>
    rw [handle_settings_frame env d d2 _ (fun _ => by simp) (fun _ => by simp)
      (fun _ => by simp) h]
    exact hs
  | restoreCurrentSelection =>
    rw [handle_settings_frame env d d2 _ (fun _ => by simp) (fun _ => by simp)
      (fun _ => by simp) h]
    exact hs
  | pressed middleButton =>
    rw [handle_settings_frame env d d2 _ (fun _ => by simp) (fun _ => by simp)
      (fun _ => by simp) h]
    exact hs
  | clicked index =>
    rw [handle_settings_frame env d d2 _ (fun _ => by simp) (fun _ => by simp)
      (fun _ => by simp) h]
    exact hs
  | triggered action =>
    rw [handle_settings_frame env d d2 _ (fun _ => by simp) (fun _ => by simp)
      (fun _ => by simp) h]
    exact hs

/-- A sequence of events none of which disturbs the report of `g` keeps the value stored
under `g`. -/
theorem runIn_keeps_reported (g : QString) (expand : Bool) (es : List (Env × Event))
    (d d2 : RoomListDock) (hs : d.dockSettings.stored g = some (reportedState expand))
    (hes : undisturbed g expand d es = true) (h : d.runIn es = .ok d2) :
    d2.dockSettings.stored g = some (reportedState expand) := by
  induction es generalizing d with
  | nil =>
    simp only [RoomListDock.runIn] at h
    cases h
    exact hs
  | cons ee rest ih =>
    obtain ⟨env, e⟩ := ee
    simp only [RoomListDock.runIn] at h
    simp only [undisturbed, Bool.and_eq_true, Bool.not_eq_true'] at hes
    cases h1 : d.handle env e with
    | error f => simp [h1] at h
    | ok d1 =>
      rw [h1] at h
      simp only [h1] at hes
      exact ih d1 (handle_keeps_reported env d d1 e g expand hs hes.1 h1) hes.2 h

/-- The `groupAdded` handler for a group under whose key a report is stored. -/
theorem onGroupAdded_of_reported (env : Env) (d : RoomListDock) (groupPos : Nat) (g : QString)
    (expand : Bool)
    (hg : (env.model.roomGroupAt (env.model.index groupPos 0)).toString = g)
    (hs : d.dockSettings.stored g = some (reportedState expand)) :
    (d.onGroupAdded env groupPos).calls =
        d.calls
          ++ (if g.startsWith "org.qmatrixclient".toList then [Call.logDeprecated g] else [])
          ++ [Call.setExpanded (env.model.index groupPos 0) expand] ∧
      (d.onGroupAdded env groupPos).dockSettings.reads = d.dockSettings.reads ++ [g] ∧
      (d.onGroupAdded env groupPos).dockSettings.entries = d.dockSettings.entries := by
  subst hg
  unfold RoomListDock.onGroupAdded
  simp only [SettingsGroup.value, SettingsGroup.stored] at hs ⊢
  simp only [hs]
  cases expand <;>
    simp [QVariant.isValid, QVariant.toString, reportedState, Expanded_ne_Collapsed]

/-- C5, as amended: the expansion state of a group round-trips through the settings store
as long as the report is not disturbed.  The view reports a group with key `g` expanded
(collapsed); the dock then handles any events without a fault, none of which is a report
of `g` in the other state or the `groupAdded` of a group that takes its value from `g` as
its legacy key; then the `groupAdded` handler for a group with key `g` calls
`setExpanded` on its index with `true` (`false`), whatever `g` is, reads the settings
under the key `g` only, and leaves the store as it found it.  Each event has the
environment of its moment. -/
theorem expansion_roundtrip_undisturbed (expand : Bool) (env env2 : Env)
    (d d1 d2 : RoomListDock) (i : QModelIndex) (groupPos : Nat) (g : QString)
    (es : List (Env × Event))
    (hi : (env.model.roomGroupAt i).toString = g)
    (hg : (env2.model.roomGroupAt (env2.model.index groupPos 0)).toString = g)
    (hreport : d.handle env (Event.report expand i) = .ok d1)
    (hes : undisturbed g expand d1 es = true)
    (hrun : d1.runIn es = .ok d2) :
    (d2.onGroupAdded env2 groupPos).calls =
        d2.calls
          ++ (if g.startsWith "org.qmatrixclient".toList then [Call.logDeprecated g] else [])
          ++ [Call.setExpanded (env2.model.index groupPos 0) expand] ∧
      (d2.onGroupAdded env2 groupPos).dockSettings.reads = d2.dockSettings.reads ++ [g] ∧
      (d2.onGroupAdded env2 groupPos).dockSettings.entries = d2.dockSettings.entries := by
  have h1 : d1.dockSettings.stored g = some (reportedState expand) := by
    subst hi
    cases expand
    · simp only [Event.report, RoomListDock.handle, RoomListDock.onCollapsed] at hreport
      cases hreport
      simp [SettingsGroup.stored, SettingsGroup.setValue, reportedState]
    · simp only [Event.report, RoomListDock.handle, RoomListDock.onExpanded] at hreport
      cases hreport
      simp [SettingsGroup.stored, SettingsGroup.setValue, reportedState]
  exact onGroupAdded_of_reported env2 d2 groupPos g expand hg
    (runIn_keeps_reported g expand es d1 d2 h1 hes hrun)

/-- The round trip at the example: the direct chats group is reported collapsed, a context
menu is requested, the user tag group is reported expanded and added, and then the
direct chats group is added. -/
theorem expansion_roundtrip_undisturbed_witness :
    ∃ d1 d2 : RoomListDock,
      (RoomListDock.new SettingsGroup.empty).handle exampleEnv
          (Event.report false (.group 1)) = .ok d1 ∧
      undisturbed "im.quotient.direct".toList false d1
          [(exampleEnv, .customContextMenuRequested (5, 50)),
            (exampleEnv, .expanded (.group 2)), (exampleEnv, .groupAdded 2)] = true ∧
      d1.runIn
          [(exampleEnv, .customContextMenuRequested (5, 50)),
            (exampleEnv, .expanded (.group 2)), (exampleEnv, .groupAdded 2)] = .ok d2 ∧
      d2.calls = [.popup .groupContextMenu (105, 150), .setExpanded (.group 2) true] ∧
      (d2.onGroupAdded exampleEnv 1).calls =
        d2.calls
          ++ (if QString.startsWith "im.quotient.direct".toList "org.qmatrixclient".toList
              then [Call.logDeprecated "im.quotient.direct".toList] else [])
          ++ [Call.setExpanded (exampleEnv.model.index 1 0) false] ∧
      (d2.onGroupAdded exampleEnv 1).dockSettings.reads =
        d2.dockSettings.reads ++ ["im.quotient.direct".toList] ∧
      (d2.onGroupAdded exampleEnv 1).dockSettings.entries = d2.dockSettings.entries :=
  ⟨_, _, rfl, by decide, rfl, by decide,
    expansion_roundtrip_undisturbed false exampleEnv exampleEnv
      (RoomListDock.new SettingsGroup.empty) _ _ (.group 1) 1 "im.quotient.direct".toList
      [(exampleEnv, .customContextMenuRequested (5, 50)),
        (exampleEnv, .expanded (.group 2)), (exampleEnv, .groupAdded 2)]
      (by decide) (by decide) rfl (by decide) rfl⟩

/-- C5, as stated, fails: direct chats appear under the legacy key (row 0) and under the
system key (row 1), and nothing is stored.  The view reports row 0 expanded; the group of
row 1 is added, which takes "expand" from the key of row 0 as its legacy key and removes
it; then the group of row 0 is added, and the dock sets it collapsed. -/
theorem expansion_roundtrip_broken_by_migration :
    ∃ d2 : RoomListDock,
      (legacyEnv.model.roomGroupAt (.group 0)).toString = "org.qmatrixclient.direct".toList ∧
      (legacyEnv.model.roomGroupAt (legacyEnv.model.index 0 0)).toString
        = "org.qmatrixclient.direct".toList ∧
      (legacyEnv.model.roomGroupAt (legacyEnv.model.index 1 0)).toString
        = "im.quotient.direct".toList ∧
      (RoomListDock.new SettingsGroup.empty).run legacyEnv
          [.expanded (.group 0), .groupAdded 1, .groupAdded 0] = .ok d2 ∧
      d2.calls =
        [.setExpanded (.group 1) true, .logDeprecated "org.qmatrixclient.direct".toList,
          .setExpanded (.group 0) false] :=
  ⟨_, by decide, by decide, by decide, rfl, by decide⟩

/-! ## Selection -/

/-- C2: `setSelectedRoom(room)` changes nothing when `getSelectedRoom()` is `room`
already.  Otherwise, when a group is selected and `indexOf(currentGroup, room)` is valid,
that index becomes the current index (and is scrolled to); else, when `indexOf({}, room)`
is valid, that index does; and when neither lookup finds the room nothing changes. -/
theorem setSelectedRoom_spec (env : Env) (d : RoomListDock) (room : Option RoomPtr) :
    (d.getSelectedRoom env = room → d.setSelectedRoom env room = d) ∧
    (d.getSelectedRoom env ≠ room →
      ((d.getSelectedGroup env).isNull = false →
        (env.model.indexOf (d.getSelectedGroup env) room).isValid = true →
        d.setSelectedRoom env room =
          { d with
            currentIndex := env.model.indexOf (d.getSelectedGroup env) room,
            calls := d.calls ++ [.scrollTo (env.model.indexOf (d.getSelectedGroup env) room)] }) ∧
      (((d.getSelectedGroup env).isNull = true ∨
          (env.model.indexOf (d.getSelectedGroup env) room).isValid = false) →
        ((env.model.indexOf none room).isValid = true →
          d.setSelectedRoom env room =
            { d with
              currentIndex := env.model.indexOf none room,
              calls := d.calls ++ [.scrollTo (env.model.indexOf none room)] }) ∧
        ((env.model.indexOf none room).isValid = false →
          d.setSelectedRoom env room = d))) := by
  have h0 : QModelIndex.invalid.isValid = false := rfl
  refine ⟨fun h => by simp [RoomListDock.setSelectedRoom, h], fun h => ⟨?_, ?_⟩⟩
  · intro hn hv
    simp [RoomListDock.setSelectedRoom, h, hn, hv, RoomListDock.selectAndScrollTo]
  · intro hc
    rcases hc with hn | hv
    · constructor
      · intro hw
        simp [RoomListDock.setSelectedRoom, h, hn, hw, RoomListDock.selectAndScrollTo,
          h0]
      · intro hw
        simp [RoomListDock.setSelectedRoom, h, hn, hw, h0]
    · constructor
      · intro hw
        cases hn : (d.getSelectedGroup env).isNull <;>
          simp [RoomListDock.setSelectedRoom, h, hn, hv, hw, RoomListDock.selectAndScrollTo,
            h0]
      · intro hw
        cases hn : (d.getSelectedGroup env).isNull <;>
          simp [RoomListDock.setSelectedRoom, h, hn, hv, hw, h0]

/-- With room 1 current under favourites, selecting room 3 does not find it in that group and
finds it in the whole list, under the user tag. -/
theorem setSelectedRoom_spec_witness :
    RoomListDock.getSelectedRoom exampleEnv
        { RoomListDock.new exampleSettings with currentIndex := .room 0 0 } ≠ some 3 ∧
    RoomListDock.setSelectedRoom exampleEnv
        { RoomListDock.new exampleSettings with currentIndex := .room 0 0 } (some 3) =
      { RoomListDock.new exampleSettings with
        currentIndex := exampleEnv.model.indexOf none (some 3),
        calls := [.scrollTo (exampleEnv.model.indexOf none (some 3))] } ∧
    exampleEnv.model.indexOf none (some 3) = .room 2 1 :=
  ⟨by decide,
    ((setSelectedRoom_spec exampleEnv
      { RoomListDock.new exampleSettings with currentIndex := .room 0 0 } (some 3)).2
        (by decide)).2 (Or.inr (by decide)) |>.1 (by decide),
    by decide⟩

/-- C3: when the model emits `restoreCurrentSelection` the dock does not fail; the view's
current index becomes `indexOf(selectedGroupCache, selectedRoomCache)` and is scrolled
to, so there is no selection when that index is invalid; the selection cache is empty
afterwards whatever `indexOf` returned; nothing else changes. -/
theorem restoreCurrentSelection_spec (env : Env) (d : RoomListDock) :
    d.handle env .restoreCurrentSelection =
      .ok { d with
        currentIndex := env.model.indexOf d.selectedGroupCache d.selectedRoomCache,
        calls := d.calls ++
          [.scrollTo (env.model.indexOf d.selectedGroupCache d.selectedRoomCache)],
        selectedGroupCache := none,
        selectedRoomCache := none } ∧
    (d.onRestoreCurrentSelection env).currentIndex =
      env.model.indexOf d.selectedGroupCache d.selectedRoomCache ∧
    ((env.model.indexOf d.selectedGroupCache d.selectedRoomCache).isValid = false →
      (d.onRestoreCurrentSelection env).currentIndex.isValid = false ∧
      (d.onRestoreCurrentSelection env).getSelectedRoom env = none ∧
      (d.onRestoreCurrentSelection env).getSelectedGroup env = none) ∧
    (d.onRestoreCurrentSelection env).selectedGroupCache.isNull = true ∧
    (d.onRestoreCurrentSelection env).selectedRoomCache = none := by
  refine ⟨rfl, rfl, ?_, rfl, rfl⟩
  intro h
  simp [RoomListDock.onRestoreCurrentSelection, RoomListDock.selectAndScrollTo,
    RoomListDock.getSelectedRoom, RoomListDock.getSelectedGroup, h]

/-- Restoring a cached selection that the model no longer has leaves no selection. -/
theorem restoreCurrentSelection_spec_witness :
    exampleEnv.model.indexOf (some "u.work".toList) (some 2) = .invalid ∧
    (RoomListDock.onRestoreCurrentSelection exampleEnv
      { RoomListDock.new exampleSettings with
        currentIndex := .room 1 0, selectedGroupCache := some "u.work".toList,
        selectedRoomCache := some 2 }).currentIndex.isValid = false ∧
    (RoomListDock.onRestoreCurrentSelection exampleEnv
      { RoomListDock.new exampleSettings with
        currentIndex := .room 1 0, selectedGroupCache := some "u.work".toList,
        selectedRoomCache := some 2 }).getSelectedRoom exampleEnv = none ∧
    (RoomListDock.onRestoreCurrentSelection exampleEnv
      { RoomListDock.new exampleSettings with
        currentIndex := .room 1 0, selectedGroupCache := some "u.work".toList,
        selectedRoomCache := some 2 }).getSelectedGroup exampleEnv = none :=
  ⟨by decide,
    (restoreCurrentSelection_spec exampleEnv
      { RoomListDock.new exampleSettings with
        currentIndex := .room 1 0, selectedGroupCache := some "u.work".toList,
        selectedRoomCache := some 2 }).2.2.1 (by decide)⟩

/-! ## The context menus -/

/-- C7: a context-menu request at a position whose index is a valid group index does not
fail; afterwards "Remove tag" is disabled iff the name of the group at that index starts
with the system prefix; the group menu is popped up at the position; the text and
visibility of "Remove tag", every room-menu action, the selection and the settings are
as before.  A request at a position with no valid index changes nothing and shows no
menu. -/
theorem showContextMenu_group (env : Env) (d : RoomListDock) (pos : QPoint) :
    ((env.indexAt pos).isValid = true →
      env.model.isValidGroupIndex (env.indexAt pos) = true →
      ∃ d2 : RoomListDock, d.showContextMenu env pos = .ok d2 ∧
        (d2.deleteTagAction.enabled = false ↔
          (env.model.roomGroupAt (env.indexAt pos)).toString.startsWith env.SystemPrefix
            = true) ∧
        d2.deleteTagAction.text = d.deleteTagAction.text ∧
        d2.deleteTagAction.visible = d.deleteTagAction.visible ∧
        d2.calls = d.calls ++ [.popup .groupContextMenu (env.mapToGlobal pos)] ∧
        d2.markAsReadAction = d.markAsReadAction ∧
        d2.addTagsAction = d.addTagsAction ∧
        d2.roomSettingsAction = d.roomSettingsAction ∧
        d2.roomPermalinkAction = d.roomPermalinkAction ∧
        d2.joinAction = d.joinAction ∧
        d2.leaveAction = d.leaveAction ∧
        d2.forgetAction = d.forgetAction ∧
        d2.currentIndex = d.currentIndex ∧
        d2.selectedGroupCache = d.selectedGroupCache ∧
        d2.selectedRoomCache = d.selectedRoomCache ∧
        d2.dockSettings = d.dockSettings) ∧
    ((env.indexAt pos).isValid = false → d.showContextMenu env pos = .ok d) := by
  constructor
  · intro hv hg
    refine ⟨_, by simp only [RoomListDock.showContextMenu, hv, hg]; rfl, ?_⟩
    simp [QAction.setDisabled]
  · intro hv
    simp [RoomListDock.showContextMenu, hv]

/-- The group menu at the example: requested on the direct chats group, and outside any row. -/
theorem showContextMenu_group_witness :
    (∃ d2 : RoomListDock,
      (RoomListDock.new exampleSettings).showContextMenu exampleEnv (5, 50) = .ok d2 ∧
        (d2.deleteTagAction.enabled = false ↔
          (exampleEnv.model.roomGroupAt (exampleEnv.indexAt (5, 50))).toString.startsWith
            exampleEnv.SystemPrefix = true) ∧
        d2.deleteTagAction.text = (RoomListDock.new exampleSettings).deleteTagAction.text ∧
        d2.deleteTagAction.visible =
          (RoomListDock.new exampleSettings).deleteTagAction.visible ∧
        d2.calls = (RoomListDock.new exampleSettings).calls
          ++ [.popup .groupContextMenu (exampleEnv.mapToGlobal (5, 50))] ∧
        d2.markAsReadAction = (RoomListDock.new exampleSettings).markAsReadAction ∧
        d2.addTagsAction = (RoomListDock.new exampleSettings).addTagsAction ∧
        d2.roomSettingsAction = (RoomListDock.new exampleSettings).roomSettingsAction ∧
        d2.roomPermalinkAction = (RoomListDock.new exampleSettings).roomPermalinkAction ∧
        d2.joinAction = (RoomListDock.new exampleSettings).joinAction ∧
        d2.leaveAction = (RoomListDock.new exampleSettings).leaveAction ∧
        d2.forgetAction = (RoomListDock.new exampleSettings).forgetAction ∧
        d2.currentIndex = (RoomListDock.new exampleSettings).currentIndex ∧
        d2.selectedGroupCache = (RoomListDock.new exampleSettings).selectedGroupCache ∧
        d2.selectedRoomCache = (RoomListDock.new exampleSettings).selectedRoomCache ∧
        d2.dockSettings = (RoomListDock.new exampleSettings).dockSettings) ∧
    exampleEnv.indexAt (5, 50) = .group 1 ∧
    (RoomListDock.new exampleSettings).showContextMenu exampleEnv (5, -3)
      = .ok (RoomListDock.new exampleSettings) :=
  ⟨(showContextMenu_group exampleEnv (RoomListDock.new exampleSettings) (5, 50)).1
      (by decide) (by decide),
    by decide,
    (showContextMenu_group exampleEnv (RoomListDock.new exampleSettings) (5, -3)).2
      (by decide)⟩

/-- C8: a context-menu request on a room index (valid, not a group index, a room index
of the model with a room behind it) does not fail and sets the room menu from the join
state of that room alone: "Mark room as read" and "Add tags" are enabled iff the state
is Join, "Join room" iff it is not Join; the leave action is enabled iff the state is
not Leave, and reads "Reject invitation" for Invite and "Leave room" otherwise; "Forget
room" is visible iff the state is not Invite; the room menu is popped up.  So the join
action or the leave action is enabled, and "Join room" and "Mark room as read" are not
both enabled. -/
theorem showContextMenu_room (env : Env) (d : RoomListDock) (pos : QPoint) (room : RoomPtr)
    (hv : (env.indexAt pos).isValid = true)
    (hg : env.model.isValidGroupIndex (env.indexAt pos) = false)
    (hr : env.model.isValidRoomIndex (env.indexAt pos) = true)
    (hroom : env.model.roomAt (env.indexAt pos) = some room) :
    ∃ d2 : RoomListDock, d.showContextMenu env pos = .ok d2 ∧
      (d2.markAsReadAction.enabled = true ↔ (env.room room).joinState = .Join) ∧
      (d2.addTagsAction.enabled = true ↔ (env.room room).joinState = .Join) ∧
      (d2.joinAction.enabled = true ↔ (env.room room).joinState ≠ .Join) ∧
      (d2.leaveAction.enabled = true ↔ (env.room room).joinState ≠ .Leave) ∧
      (d2.leaveAction.text = "Reject invitation".toList ↔
        (env.room room).joinState = .Invite) ∧
      ((env.room room).joinState ≠ .Invite → d2.leaveAction.text = "Leave room".toList) ∧
      (d2.forgetAction.visible = true ↔ (env.room room).joinState ≠ .Invite) ∧
      d2.calls = d.calls ++ [.popup .roomContextMenu (env.mapToGlobal pos)] ∧
      (d2.joinAction.enabled = true ∨ d2.leaveAction.enabled = true) ∧
      ¬ (d2.joinAction.enabled = true ∧ d2.markAsReadAction.enabled = true) := by
  have ht : "Leave room".toList ≠ "Reject invitation".toList := by decide
  refine ⟨_, by simp only [RoomListDock.showContextMenu, hv, hg, hr, hroom]; rfl, ?_⟩
  cases hj : (env.room room).joinState <;>
    simp [QAction.setEnabled, QAction.setVisible, QAction.setText, ht]

/-- The room menu at the example, requested on an invitation. -/
theorem showContextMenu_room_witness :
    exampleEnv.model.roomAt (exampleEnv.indexAt (5, 70)) = some 2 ∧
    (exampleEnv.room 2).joinState = .Invite ∧
    ∃ d2 : RoomListDock,
      (RoomListDock.new exampleSettings).showContextMenu exampleEnv (5, 70) = .ok d2 ∧
      (d2.markAsReadAction.enabled = true ↔ (exampleEnv.room 2).joinState = .Join) ∧
      (d2.addTagsAction.enabled = true ↔ (exampleEnv.room 2).joinState = .Join) ∧
      (d2.joinAction.enabled = true ↔ (exampleEnv.room 2).joinState ≠ .Join) ∧
      (d2.leaveAction.enabled = true ↔ (exampleEnv.room 2).joinState ≠ .Leave) ∧
      (d2.leaveAction.text = "Reject invitation".toList ↔
        (exampleEnv.room 2).joinState = .Invite) ∧
      ((exampleEnv.room 2).joinState ≠ .Invite → d2.leaveAction.text = "Leave room".toList) ∧
      (d2.forgetAction.visible = true ↔ (exampleEnv.room 2).joinState ≠ .Invite) ∧
      d2.calls = (RoomListDock.new exampleSettings).calls
        ++ [.popup .roomContextMenu (exampleEnv.mapToGlobal (5, 70))] ∧
      (d2.joinAction.enabled = true ∨ d2.leaveAction.enabled = true) ∧
      ¬ (d2.joinAction.enabled = true ∧ d2.markAsReadAction.enabled = true) :=
  ⟨by decide, by decide,
    showContextMenu_room exampleEnv (RoomListDock.new exampleSettings) (5, 70) 2
      (by decide) (by decide) (by decide) (by decide)⟩

/-! ## Adding tags -/

/-- Lookup in a tag map with one entry appended. -/
theorem TagsMap.find_append_single (tags : TagsMap) (key k : QString) (r : TagRecord) :
    TagsMap.find (tags ++ [(key, r)]) k =
      match TagsMap.find tags k with
      | some r0 => some r0
      | none => if k = key then some r else none := by
  induction tags with
  | nil =>
    by_cases h : k = key
    · simp [TagsMap.find, List.lookup, h]
    · have hb : (k == key) = false := by simpa using h
      simp [TagsMap.find, List.lookup, h, hb]
  | cons e rest ih =>
    obtain ⟨k0, r0⟩ := e
    by_cases h0 : k = k0
    · simp [TagsMap.find, List.lookup, h0]
    · have hb : (k == k0) = false := by simpa using h0
      simp only [TagsMap.find, List.cons_append, List.lookup, hb] at ih ⊢
      exact ih

/-- Lookup after `ensure`: old entries are kept, the ensured key gets a default record if it
was absent. -/
theorem TagsMap.find_ensure (tags : TagsMap) (key k : QString) :
    TagsMap.find (tags.ensure key) k =
      match TagsMap.find tags k with
      | some r0 => some r0
      | none => if k = key then some {} else none := by
  unfold TagsMap.ensure
  cases hk : TagsMap.find tags key with
  | some r =>
    cases hk2 : TagsMap.find tags k with
    | some r2 => simp [hk2]
    | none =>
      have : k ≠ key := by
        intro h
        rw [h, hk] at hk2
        cases hk2
      simp [hk2, this]
  | none => exact TagsMap.find_append_single tags key k {}

/-- The loop over the entered tags keeps every old entry. -/
theorem addEnteredTags_find_old (env : Env) (entered : List QString) (tags : TagsMap)
    (k : QString) (r : TagRecord) (h : TagsMap.find tags k = some r) :
    TagsMap.find (addEnteredTags env tags entered) k = some r := by
  induction entered generalizing tags with
  | nil => simpa [addEnteredTags] using h
  | cons l rest ih =>
    have h2 : TagsMap.find (tags.ensure (env.captionToTag l)) k = some r := by
      rw [TagsMap.find_ensure, h]
    exact ih _ h2

/-- The loop over the entered tags gives an entered tag that was absent a default record. -/
theorem addEnteredTags_find_new (env : Env) (entered : List QString) (tags : TagsMap)
    (l : QString) (hl : l ∈ entered) (h : TagsMap.find tags (env.captionToTag l) = none) :
    TagsMap.find (addEnteredTags env tags entered) (env.captionToTag l) = some {} := by
  induction entered generalizing tags with
  | nil => cases hl
  | cons l0 rest ih =>
    by_cases h0 : env.captionToTag l = env.captionToTag l0
    · have h2 : TagsMap.find (tags.ensure (env.captionToTag l0)) (env.captionToTag l)
          = some {} := by
        rw [TagsMap.find_ensure, h]
        simp [h0]
      exact addEnteredTags_find_old env rest _ _ _ h2
    · have hl2 : l ∈ rest := by
        rcases List.mem_cons.mp hl with hl | hl
        · exact absurd (by rw [hl]) h0
        · exact hl
      have h2 : TagsMap.find (tags.ensure (env.captionToTag l0)) (env.captionToTag l)
          = none := by
        rw [TagsMap.find_ensure, h]
        simp [h0]
      exact ih _ hl2 h2

/-- The loop over the entered tags adds no key but the entered tags. -/
theorem addEnteredTags_find_only (env : Env) (entered : List QString) (tags : TagsMap)
    (k : QString) (h : (TagsMap.find (addEnteredTags env tags entered) k).isSome = true) :
    (TagsMap.find tags k).isSome = true ∨ ∃ l ∈ entered, k = env.captionToTag l := by
  induction entered generalizing tags with
  | nil => exact Or.inl (by simpa [addEnteredTags] using h)
  | cons l0 rest ih =>
    rcases ih (tags.ensure (env.captionToTag l0)) h with h1 | ⟨l, hl, hk⟩
    · rw [TagsMap.find_ensure] at h1
      cases hf : TagsMap.find tags k with
      | some r => exact Or.inl rfl
      | none =>
        rw [hf] at h1
        by_cases hk : k = env.captionToTag l0
        · exact Or.inr ⟨l0, List.mem_cons_self _ _, hk⟩
        · simp [hk] at h1
    · exact Or.inr ⟨l, List.mem_cons_of_mem _ hl, hk⟩

/-- Splitting with `SkipEmptyParts` yields the non-empty parts. -/
theorem mem_split_skipEmptyParts (s : QString) (sep : Char) (l : QString) :
    l ∈ s.split sep .SkipEmptyParts ↔ l ∈ s.split sep .KeepEmptyParts ∧ l ≠ [] := by
  simp [QString.split, List.mem_filter]

/-- C6: when the add-tags dialog is accepted for the selected room, the dock calls
`setTags` on that room once, with a tag map that has every tag the room had, with its
record; has `captionToTag(l)` with a default record for every non-empty line `l` of the
entered text whose tag the room did not have; and has no other key. -/
theorem addTagsSelected_spec (env : Env) (d : RoomListDock) (dlg : TagsDialog) (room : RoomPtr)
    (hroom : d.getSelectedRoom env = some room) (hacc : dlg.accepted = true) :
    ∃ tags : TagsMap,
      d.addTagsSelected env dlg = .ok { d with calls := d.calls ++ [.setTags room tags] } ∧
      (∀ k r, TagsMap.find (env.room room).tags k = some r → TagsMap.find tags k = some r) ∧
      (∀ l ∈ dlg.plainText.split '\n' .KeepEmptyParts, l ≠ [] →
        TagsMap.find (env.room room).tags (env.captionToTag l) = none →
        TagsMap.find tags (env.captionToTag l) = some {}) ∧
      (∀ k, (TagsMap.find tags k).isSome = true →
        (TagsMap.find (env.room room).tags k).isSome = true ∨
        ∃ l ∈ dlg.plainText.split '\n' .KeepEmptyParts, l ≠ [] ∧ k = env.captionToTag l) := by
  refine ⟨addEnteredTags env (env.room room).tags
    (dlg.plainText.split '\n' .SkipEmptyParts), ?_, ?_, ?_, ?_⟩
  · simp [RoomListDock.addTagsSelected, hroom, hacc]
  · intro k r h
    exact addEnteredTags_find_old env _ _ k r h
  · intro l hl hne h
    exact addEnteredTags_find_new env _ _ l
      ((mem_split_skipEmptyParts _ _ _).mpr ⟨hl, hne⟩) h
  · intro k h
    rcases addEnteredTags_find_only env _ _ k h with h1 | ⟨l, hl, hk⟩
    · exact Or.inl h1
    · obtain ⟨hl1, hl2⟩ := (mem_split_skipEmptyParts _ _ _).mp hl
      exact Or.inr ⟨l, hl1, hl2, hk⟩

/-- Adding "Favourites" and "play" to room 1: the favourite weight stays, `u.play` is new. -/
theorem addTagsSelected_spec_witness :
    RoomListDock.getSelectedRoom exampleEnv
        { RoomListDock.new exampleSettings with currentIndex := .room 0 0 } = some 1 ∧
    (∃ tags : TagsMap,
      RoomListDock.addTagsSelected exampleEnv
          { RoomListDock.new exampleSettings with currentIndex := .room 0 0 }
          ⟨true, "Favourites\n\nplay".toList⟩ =
        .ok { RoomListDock.new exampleSettings with
          currentIndex := .room 0 0, calls := [] ++ [.setTags 1 tags] } ∧
      (∀ k r, TagsMap.find (exampleEnv.room 1).tags k = some r →
        TagsMap.find tags k = some r) ∧
      (∀ l ∈ QString.split "Favourites\n\nplay".toList '\n' .KeepEmptyParts, l ≠ [] →
        TagsMap.find (exampleEnv.room 1).tags (exampleEnv.captionToTag l) = none →
        TagsMap.find tags (exampleEnv.captionToTag l) = some {}) ∧
      (∀ k, (TagsMap.find tags k).isSome = true →
        (TagsMap.find (exampleEnv.room 1).tags k).isSome = true ∨
        ∃ l ∈ QString.split "Favourites\n\nplay".toList '\n' .KeepEmptyParts,
          l ≠ [] ∧ k = exampleEnv.captionToTag l)) ∧
    addEnteredTags exampleEnv (exampleEnv.room 1).tags
        (QString.split "Favourites\n\nplay".toList '\n' .SkipEmptyParts) =
      [("m.favourite".toList, ⟨some (1 / 2)⟩), ("u.work".toList, ⟨none⟩),
        ("u.play".toList, ⟨none⟩)] :=
  ⟨by decide,
    addTagsSelected_spec exampleEnv
      { RoomListDock.new exampleSettings with currentIndex := .room 0 0 }
      ⟨true, "Favourites\n\nplay".toList⟩ 1 (by decide) rfl,
    rfl⟩

/-! ## Actions without a selected room -/

/-- C4, at failing inputs.  In the dock as constructed no room is selected and "Copy room
link to clipboard" is enabled; triggering it dereferences the null pointer that
`getSelectedRoom()` returns.  The same happens with the room menu open: the menu is
requested on the row of room 1, which is current; the model saves the selection, loses
room 1 and restores the selection, which leaves no current index; the action, still
enabled, is triggered. -/
theorem roomPermalink_no_room_fails :
    ((RoomListDock.new exampleSettings).getSelectedRoom exampleEnv = none ∧
      (RoomListDock.new exampleSettings).roomPermalinkAction.enabled = true ∧
      (RoomListDock.new exampleSettings).handle exampleEnv (.triggered .roomPermalink) =
        .error .nullDereference) ∧
    ∃ d1 d2 : RoomListDock,
      RoomListDock.run exampleEnv
          { RoomListDock.new exampleSettings with currentIndex := .room 0 0 }
          [.customContextMenuRequested (5, 30), .saveCurrentSelection] = .ok d1 ∧
      d1.calls = [.popup .roomContextMenu (105, 130)] ∧
      d1.selectedRoomCache = some 1 ∧
      d1.handle exampleEnvAfter .restoreCurrentSelection = .ok d2 ∧
      d2.currentIndex = .invalid ∧
      d2.getSelectedRoom exampleEnvAfter = none ∧
      d2.roomPermalinkAction.enabled = true ∧
      d2.handle exampleEnvAfter (.triggered .roomPermalink) = .error .nullDereference :=
  ⟨⟨by decide, by decide, rfl⟩,
    _, _, rfl, by decide, by decide, rfl, by decide, by decide, by decide, rfl⟩

/-- With no selected room, the slots of "Mark room as read", "Add tags", "Join room", the
leave action and "Forget room" return without a fault and leave the dock, its call log
included, as it was. -/
theorem guarded_slots_tolerate_no_room (env : Env) (d : RoomListDock) (dlg : TagsDialog)
    (confirmation : StandardButton) (h : d.getSelectedRoom env = none) :
    d.slot env .markAsRead = .ok d ∧
    d.slot env (.addTags dlg) = .ok d ∧
    d.slot env .join = .ok d ∧
    d.slot env .leave = .ok d ∧
    d.slot env (.forget confirmation) = .ok d := by
  simp [RoomListDock.slot, RoomListDock.markAsReadTriggered, RoomListDock.addTagsSelected,
    RoomListDock.joinTriggered, RoomListDock.leaveTriggered, RoomListDock.forgetTriggered, h]

/-- The guarded slots at the example, with a group row current. -/
theorem guarded_slots_tolerate_no_room_witness :
    RoomListDock.getSelectedRoom exampleEnv
        { RoomListDock.new exampleSettings with currentIndex := .group 2 } = none ∧
    RoomListDock.slot exampleEnv
        { RoomListDock.new exampleSettings with currentIndex := .group 2 } .markAsRead =
      .ok { RoomListDock.new exampleSettings with currentIndex := .group 2 } ∧
    RoomListDock.slot exampleEnv
        { RoomListDock.new exampleSettings with currentIndex := .group 2 }
        (.addTags ⟨true, "play".toList⟩) =
      .ok { RoomListDock.new exampleSettings with currentIndex := .group 2 } ∧
    RoomListDock.slot exampleEnv
        { RoomListDock.new exampleSettings with currentIndex := .group 2 } .join =
      .ok { RoomListDock.new exampleSettings with currentIndex := .group 2 } ∧
    RoomListDock.slot exampleEnv
        { RoomListDock.new exampleSettings with currentIndex := .group 2 } .leave =
      .ok { RoomListDock.new exampleSettings with currentIndex := .group 2 } ∧
    RoomListDock.slot exampleEnv
        { RoomListDock.new exampleSettings with currentIndex := .group 2 } (.forget .Yes) =
      .ok { RoomListDock.new exampleSettings with currentIndex := .group 2 } :=
  ⟨by decide,
    guarded_slots_tolerate_no_room exampleEnv
      { RoomListDock.new exampleSettings with currentIndex := .group 2 }
      ⟨true, "play".toList⟩ .Yes (by decide)⟩

/-! ## Removing a tag -/

/-- C1, at the failing input: the direct chats group (a system group) is current, the
context menu is requested on the row of the user tag, which enables "Remove tag" and
pops up the group menu; triggering the action then passes the index of the system
group to `deleteTag`. -/
theorem deleteTag_reaches_system_group :
    ∃ d1 d2 : RoomListDock,
      (RoomListDock.new exampleSettings).run exampleEnv
          [.currentChanged (.group 1), .customContextMenuRequested (5, 90)] = .ok d1 ∧
      exampleEnv.indexAt (5, 90) = .group 2 ∧
      d1.deleteTagAction.enabled = true ∧
      d1.calls = [.popup .groupContextMenu (105, 190)] ∧
      d1.handle exampleEnv (.triggered .deleteTag) = .ok d2 ∧
      d2.calls = d1.calls ++ [.deleteTag (.group 1)] ∧
      exampleEnv.model.isValidGroupIndex (.group 1) = true ∧
      (exampleEnv.model.roomGroupAt (.group 1)).toString.startsWith exampleEnv.SystemPrefix
        = true :=
  ⟨_, _, rfl, by decide, by decide, by decide, rfl, rfl, by decide, by decide⟩

/-- When the view's current index is the index under the position of the context-menu
request and that index is a valid group index, a trigger of "Remove tag" right after
the request either does nothing, the action being disabled, or passes to `deleteTag`
that index, whose group name does not start with the system prefix. -/
theorem deleteTag_after_menu_on_current (env : Env) (d : RoomListDock) (pos : QPoint)
    (hcur : d.currentIndex = env.indexAt pos)
    (hv : (env.indexAt pos).isValid = true)
    (hg : env.model.isValidGroupIndex (env.indexAt pos) = true) :
    ∃ d1 d2 : RoomListDock,
      d.handle env (.customContextMenuRequested pos) = .ok d1 ∧
      d1.handle env (.triggered .deleteTag) = .ok d2 ∧
      (d2.calls = d1.calls ∨
        (d2.calls = d1.calls ++ [.deleteTag (env.indexAt pos)] ∧
          (env.model.roomGroupAt (env.indexAt pos)).toString.startsWith env.SystemPrefix
            = false)) := by
  have h1 : d.handle env (.customContextMenuRequested pos) =
      .ok { d with
        deleteTagAction := d.deleteTagAction.setDisabled
          ((env.model.roomGroupAt (env.indexAt pos)).toString.startsWith env.SystemPrefix),
        calls := d.calls ++ [.popup .groupContextMenu (env.mapToGlobal pos)] } := by
    simp only [RoomListDock.handle, RoomListDock.showContextMenu, hv, hg]
    rfl
  cases hs : (env.model.roomGroupAt (env.indexAt pos)).toString.startsWith env.SystemPrefix with
  | true =>
    rw [hs] at h1
    exact ⟨_, _, h1, rfl, Or.inl rfl⟩
  | false =>
    rw [hs] at h1
    refine ⟨_, _, h1, rfl, Or.inr ⟨?_, rfl⟩⟩
    simp [hcur]

/-- The group menu requested on the user tag, which is current. -/
theorem deleteTag_after_menu_on_current_witness :
    ∃ d1 d2 : RoomListDock,
      RoomListDock.handle exampleEnv
          { RoomListDock.new exampleSettings with currentIndex := .group 2 }
          (.customContextMenuRequested (5, 90)) = .ok d1 ∧
      d1.handle exampleEnv (.triggered .deleteTag) = .ok d2 ∧
      (d2.calls = d1.calls ∨
        (d2.calls = d1.calls ++ [.deleteTag (exampleEnv.indexAt (5, 90))] ∧
          (exampleEnv.model.roomGroupAt (exampleEnv.indexAt (5, 90))).toString.startsWith
            exampleEnv.SystemPrefix = false)) :=
  deleteTag_after_menu_on_current exampleEnv
    { RoomListDock.new exampleSettings with currentIndex := .group 2 } (5, 90)
    (by decide) (by decide) (by decide)

/-! ## More on the settings store -/

/-- On `groupAdded` for a group whose key `g` starts with the system prefix, reads back no
value, and whose legacy key reads back no value either, the handler stores an invalid
variant under `g` and removes nothing: every key, `g` included, reads back what it read
back before, and every key other than `g` is stored as before. -/
theorem onGroupAdded_nothing_to_migrate (env : Env) (d : RoomListDock) (groupPos : Nat)
    (g : QString)
    (hg : (env.model.roomGroupAt (env.model.index groupPos 0)).toString = g)
    (hp : g.startsWith env.SystemPrefix = true)
    (h1 : d.dockSettings.stored g = none)
    (h2 : d.dockSettings.stored (env.LegacyPrefix ++ g.drop env.SystemPrefix.length) = none) :
    (d.onGroupAdded env groupPos).dockSettings.entries g = some none ∧
    (∀ k, k ≠ g →
      (d.onGroupAdded env groupPos).dockSettings.entries k = d.dockSettings.entries k) ∧
    (∀ k, (d.onGroupAdded env groupPos).dockSettings.stored k = d.dockSettings.stored k) := by
  subst hg
  unfold RoomListDock.onGroupAdded
  simp only [SettingsGroup.value, SettingsGroup.stored, legacyKey, QString.mid,
    QString.size] at h1 h2 ⊢
  simp only [h1, h2, hp, QVariant.isValid, SettingsGroup.setValue]
  refine ⟨by simp, fun k hk => by simp [hk], fun k => ?_⟩
  by_cases hk : k = (env.model.roomGroupAt (env.model.index groupPos 0)).toString
  · simp [hk, h1]
  · simp [hk]

/-- The direct chats group added over an empty store. -/
theorem onGroupAdded_nothing_to_migrate_witness :
    ((RoomListDock.new SettingsGroup.empty).onGroupAdded exampleEnv 1).dockSettings.entries
        "im.quotient.direct".toList = some none ∧
    (∀ k, k ≠ "im.quotient.direct".toList →
      ((RoomListDock.new SettingsGroup.empty).onGroupAdded exampleEnv 1).dockSettings.entries k
        = (RoomListDock.new SettingsGroup.empty).dockSettings.entries k) ∧
    (∀ k,
      ((RoomListDock.new SettingsGroup.empty).onGroupAdded exampleEnv 1).dockSettings.stored k
        = (RoomListDock.new SettingsGroup.empty).dockSettings.stored k) :=
  onGroupAdded_nothing_to_migrate exampleEnv (RoomListDock.new SettingsGroup.empty) 1
    "im.quotient.direct".toList (by decide) (by decide) (by decide) (by decide)

/-- Only the handlers of `groupAdded`, `expanded` and `collapsed` touch the settings: every
other event that the dock handles without a fault leaves the settings group, its read
log included, as it was. -/
theorem settings_untouched_by_other_events (env : Env) (d d2 : RoomListDock) (e : Event)
    (hne : ∀ groupPos, e ≠ .groupAdded groupPos)
    (hnx : ∀ i, e ≠ .expanded i) (hnc : ∀ i, e ≠ .collapsed i)
    (h : d.handle env e = .ok d2) : d2.dockSettings = d.dockSettings :=
  handle_settings_frame env d d2 e hne hnx hnc h

/-- A context-menu request at the example leaves the settings alone. -/
theorem settings_untouched_by_other_events_witness :
    ∃ d2 : RoomListDock,
      (RoomListDock.new exampleSettings).handle exampleEnv
          (.customContextMenuRequested (5, 50)) = .ok d2 ∧
      d2.deleteTagAction.enabled = false ∧
      d2.dockSettings = (RoomListDock.new exampleSettings).dockSettings :=
  ⟨_, rfl, by decide,
    settings_untouched_by_other_events exampleEnv (RoomListDock.new exampleSettings) _
      (.customContextMenuRequested (5, 50)) (fun _ => by simp) (fun _ => by simp)
      (fun _ => by simp) rfl⟩

end Quaternion
